import Mathlib

/-!
Verification development for the shopping-agent execution engine.

The definitions below are a shallow embedding of the Python sources:

* `src/agents/runtime.py` (`AgentRunner.run`, `AgentRunner._execute_tool`):
  the legacy decision loop with placeholder guardrail, allowed-tool check,
  global budget accounting and terminate-flag handling;
* `src/agents/agent_sdk_runner.py` (`AgentSDKRunner.run`): the SDK loop
  driven by native tool calls, with value substitution, finalize-only
  termination and step accounting;
* `src/agents/sdk_tools.py` (`execute_tool`, `build_openai_tools`);
* `src/agents/human_io.py` (`HumanIOBroker`);
* `src/core/memory_store.py` (`_score`, `retrieve_known_resolution`);
* `src/agents/tools.py` (`TOOL_IMPLS` registry names);
* the workflow control state machine (pause/resume/cancel), whose signal
  handlers are referenced from `main.py` but are modelled from the spec
  because their bodies are not part of the source sample.

LLM decisions, tool implementations and the browser page are external
effects; they enter the embedding as explicit oracles (functions given as
parameters), which makes every definition executable on concrete inputs.
Transcript/message bookkeeping that feeds only the LLM oracle is omitted,
since the oracles are quantified over all behaviours.
-/

set_option autoImplicit false

/-- Byte-for-byte prefix test on character lists (helper for the
Python `in` substring operator). -/
def listIsPrefixOf : List Char → List Char → Bool
  | [], _ => true
  | _ :: _, [] => false
  | a :: as, b :: bs => a == b && listIsPrefixOf as bs

/-- Substring search on character lists. -/
def listContainsSub (pat : List Char) : List Char → Bool
  | [] => listIsPrefixOf pat []
  | c :: rest => listIsPrefixOf pat (c :: rest) || listContainsSub pat rest

/-- Python's `pat in s` substring test (`"" in s` is `True`). -/
def containsPy (s pat : String) : Bool :=
  listContainsSub pat.data s.data

/-- A tool-call argument map: field name to (stringified) value.  The
guardrail in `runtime.py` stringifies the fields it inspects, so string
values suffice for everything the claims touch. -/
abbrev Args := List (String × String)

/-- `d.get(key)` on an association-list model of a Python dict (first
binding wins; dicts have unique keys). -/
def alistLookup {α β : Type} [DecidableEq α] : List (α × β) → α → Option β
  | [], _ => none
  | (k, v) :: rest, key => if k = key then some v else alistLookup rest key

/-- `str(args.get(key, ""))`. -/
def getArgD (args : Args) (key : String) : String :=
  (alistLookup args key).getD ""

/-- The literal `_FROM_HINT` marker checked on the `selector` field
(`runtime.py` line 90). -/
def HINT_MARKER : String := "_FROM_HINT"

/-- The literal username placeholder checked on the `text` field. -/
def USERNAME_MARKER : String := "$\x7bUSERNAME\x7d"

/-- The literal password placeholder checked on the `text` field. -/
def PASSWORD_MARKER : String := "$\x7bPASSWORD\x7d"

/-- `runtime.py` lines 88-90: the placeholder guardrail predicate.  Note
that it inspects only `args.get("selector", "")` and `args.get("text", "")`. -/
def placeholderGuard (args : Args) : Bool :=
  containsPy (getArgD args "selector") HINT_MARKER
  || containsPy (getArgD args "text") USERNAME_MARKER
  || containsPy (getArgD args "text") PASSWORD_MARKER

/-- One proposed tool call: `call.get("name")` (`none` when absent or the
call is not a dict) and the argument map `call.get("args", {})`. -/
structure ToolCall where
  name : Option String
  args : Args
deriving DecidableEq

/-- One model decision (`AgentDecision`): proposed actions and the
explicit `terminate` flag (`decision.get("terminate")`). -/
structure Decision where
  actions : List ToolCall
  terminate : Bool
deriving DecidableEq

/-- The payload a tool implementation (wrapped by `_execute_tool` /
`execute_tool`) hands back: the `ok` flag plus the optional `error`,
`status` and `value` fields the runners read.  Other payload fields
(`summary`, `data`, ...) are irrelevant to the claims. -/
structure ObsPayload where
  ok : Bool
  error : Option String := none
  status : Option String := none
  value : Option String := none
deriving DecidableEq

/-- An Observation as appended by the legacy loop:
`{"tool": tool_name, **obs}`. -/
structure Obs where
  tool : Option String
  ok : Bool
  error : Option String := none
  status : Option String := none
  value : Option String := none
deriving DecidableEq

/-- The auto-observation appended after each step's actions
(`runtime.py` line 179); its page-derived `data` is not modelled. -/
def autoObs : Obs :=
  { tool := some "auto_observe", ok := true }

/-- Result of one `run` call: the `terminated` flag, the `reason` field
(present on the budget exits), and the `result.status` payload attached
when a finalize observation was found (`some s` means a `result` dict was
attached whose `status` field is `s`). -/
structure RunResult where
  terminated : Bool
  reason : Option String := none
  finalStatus : Option (Option String) := none
deriving DecidableEq

/-- The names registered in `TOOL_IMPLS` (`src/agents/tools.py`), in
registration order. -/
def TOOL_IMPLS_names : List String :=
  ["goto", "wait_network_idle", "exists", "count", "query_text", "click",
   "type", "press", "screenshot", "accept_cookies", "hint_selector",
   "check_logged_in", "invoke_subagent", "request_input", "click_hint",
   "type_hint", "press_hint", "get_secret", "type_hint_secret",
   "wait_for_hint", "click_text", "fill_label", "click_role", "fill_role",
   "press_key", "current_url", "exists_text", "wait_text", "finalize",
   "modal_exists", "modal_click_text", "modal_fill_label",
   "modal_press_key", "modal_close", "get_config"]

namespace AgentRunner

/-- The inner `for call in actions_to_run` loop of `AgentRunner.run`
(`runtime.py` lines 84-117).  Returns the observations appended for these
calls, the calls actually handed to `_execute_tool` (name and args, in
order), and the updated `_global_spent` counter.  `execTool` is the
oracle for `await self._execute_tool(page_env, tool_name, args)`. -/
def processCalls (allowed : List String) (execTool : String → Args → ObsPayload) :
    List ToolCall → Nat → List Obs × List (String × Args) × Nat
  | [], spent => ([], [], spent)
  | call :: rest, spent =>
    if placeholderGuard call.args then
      let out := processCalls allowed execTool rest spent
      ({ tool := call.name, ok := false, error := some "placeholders not allowed" } :: out.1,
       out.2.1, out.2.2)
    else
      match call.name with
      | none =>
        let out := processCalls allowed execTool rest spent
        ({ tool := none, ok := false, error := some "tool not allowed" } :: out.1,
         out.2.1, out.2.2)
      | some n =>
        if n ∈ allowed then
          let p := execTool n call.args
          let out := processCalls allowed execTool rest (spent + 1)
          ({ tool := some n, ok := p.ok, error := p.error, status := p.status,
             value := p.value } :: out.1,
           (n, call.args) :: out.2.1, out.2.2)
        else
          let out := processCalls allowed execTool rest spent
          ({ tool := some n, ok := false, error := some "tool not allowed" } :: out.1,
           out.2.1, out.2.2)

/-- `next((o for o in reversed(observations) if o.get("tool") == "finalize"
and o.get("ok")), None)` (`runtime.py` line 209). -/
def lastFinalizeOk (observations : List Obs) : Option Obs :=
  observations.reverse.find? (fun o => o.tool = some "finalize" && o.ok)

/-- The `for step in range(self._max_steps)` loop of `AgentRunner.run`
(`runtime.py` lines 55-225), structurally recursing on the remaining
iterations.  `decisions` is the model oracle (`_next_decision` per step
index); `budget` is `_global_budget`, `mAct` is `_max_actions_per_step`.
Returns the run result, the final `_global_spent`, and all calls handed
to `_execute_tool` across the run. -/
def runLoop (budget mAct : Nat) (allowed : List String)
    (execTool : String → Args → ObsPayload) (decisions : Nat → Decision) :
    Nat → Nat → Nat → List (String × Args) →
    RunResult × Nat × List (String × Args)
  | 0, _, spent, ex =>
    ({ terminated := false, reason := some "max_steps_exceeded" }, spent, ex)
  | stepsLeft + 1, step, spent, ex =>
    if budget ≤ spent then
      ({ terminated := false, reason := some "global_budget_exceeded" }, spent, ex)
    else
      let d := decisions step
      let calls := d.actions.take (max 1 mAct)
      let out := processCalls allowed execTool calls spent
      let observations := out.1 ++ [autoObs]
      let ex2 := ex ++ out.2.1
      let spent2 := out.2.2
      if d.terminate then
        ({ terminated := true,
           finalStatus := (lastFinalizeOk observations).map Obs.status }, spent2, ex2)
      else
        runLoop budget mAct allowed execTool decisions stepsLeft (step + 1) spent2 ex2

/-- `AgentRunner.run` (`runtime.py`): one call of the legacy decision
loop, starting from the instance's accumulated `_global_spent` counter
`spent0` (`__init__` sets it to `0` once; `run` never resets it). -/
def run (budget maxSteps mAct : Nat) (allowed : List String)
    (execTool : String → Args → ObsPayload) (decisions : Nat → Decision)
    (spent0 : Nat) : RunResult × Nat × List (String × Args) :=
  runLoop budget mAct allowed execTool decisions maxSteps 0 spent0 []

/-- The failure modes of one awaited tool implementation inside
`_execute_tool`: a returned payload, an `asyncio.TimeoutError` from
`asyncio.wait_for`, or any other exception. -/
inductive RtOutcome where
  | ret (p : ObsPayload)
  | timeout
  | exc (msg : String)
deriving DecidableEq

/-- The `arg_desc` diagnostic built on timeout (`runtime.py` lines 253-258). -/
def timeoutArgDesc (args : Args) : Option String :=
  match alistLookup args "key" with
  | some k => some ("key=" ++ k)
  | none =>
    match alistLookup args "selector" with
    | some s => some ("selector=" ++ s)
    | none => none

/-- `AgentRunner._execute_tool` (`runtime.py` lines 242-264).  `registry`
models `TOOL_IMPLS`; `impl` is the oracle for the awaited implementation
call together with its outcome.  A falsy (`none` or empty) tool name is
reported as missing; an unregistered name as unknown; a timeout or an
exception is converted into an `ok=false` payload. -/
def execute_tool_rt (registry : List String) (impl : String → Args → RtOutcome)
    (perStepSeconds : Nat) (tool_name : Option String) (args : Args) : ObsPayload :=
  match tool_name with
  | none => { ok := false, error := some "missing tool name" }
  | some n =>
    if n = "" then { ok := false, error := some "missing tool name" }
    else if n ∈ registry then
      match impl n args with
      | .ret p => p
      | .timeout =>
        let base := "timeout after " ++ toString perStepSeconds ++ "s"
        let detail :=
          match timeoutArgDesc args with
          | some d => base ++ " (" ++ d ++ ")"
          | none => base
        { ok := false, error := some detail }
      | .exc msg => { ok := false, error := some msg }
    else { ok := false, error := some "unknown tool" }

end AgentRunner

namespace AgentSDKRunner

/-- One native tool call as decoded by the SDK loop:
`tc.function.name` and the JSON-decoded argument map (decode failure
yields `{}`, i.e. `[]`). -/
structure SdkCall where
  name : String
  args : Args
deriving DecidableEq

/-- `build_openai_tools` (`sdk_tools.py` lines 8-30), reduced to the
names it declares to the model: `allowed_names or list(TOOL_IMPLS.keys())`
(Python truthiness: an empty list also falls back to the registry),
filtered to registered names. -/
def build_openai_tools (registry : List String) (allowed_names : Option (List String)) :
    List String :=
  let names :=
    match allowed_names with
    | some l => if l.isEmpty then registry else l
    | none => registry
  names.filter (fun n => decide (n ∈ registry))

/-- The tool list the SDK runner advertises to the model
(`agent_sdk_runner.py` line 50): the allowed tools minus the
`invoke_subagent` denylist entry, filtered to registered names. -/
def advertisedTools (registry allowed : List String) : List String :=
  build_openai_tools registry
    (some (allowed.filter (fun t => decide (t ≠ "invoke_subagent"))))

/-- Python `str.strip()` on the whitespace characters relevant here. -/
def pyStrip (s : String) : String :=
  let ws := fun c : Char => c == ' ' || c == '\t' || c == '\n' || c == '\r'
  ⟨((s.data.dropWhile ws).reverse.dropWhile ws).reverse⟩

/-- Overwrite the existing `value` binding (`args["value"] = ...`). -/
def setArgValue (args : Args) (v : String) : Args :=
  args.map (fun p => if p.1 = "value" then ("value", v) else p)

/-- The postcode auto-substitution (`agent_sdk_runner.py` lines 153-158):
for `modal_fill_label`/`fill_label`, a placeholder-ish `value` is replaced
by the last captured `get_config` value when one is set and non-empty. -/
def substituteValue (lastConfig : Option String) (name : String) (args : Args) : Args :=
  if name = "modal_fill_label" ∨ name = "fill_label" then
    match alistLookup args "value", lastConfig with
    | some v, some c =>
      if (pyStrip v = "<to-be-filled>" ∨ pyStrip v = "" ∨ pyStrip v = "<value>") ∧ c ≠ "" then
        setArgValue args c
      else args
    | _, _ => args
  else args

/-- Outcomes of calling a registered implementation from `execute_tool`
(`sdk_tools.py`): a returned payload, a `TypeError` (argument mismatch),
or any other exception. -/
inductive ImplOutcome where
  | ret (p : ObsPayload)
  | typeErr (msg : String)
  | exc (msg : String)
deriving DecidableEq

/-- `execute_tool` (`sdk_tools.py` lines 33-43).  The second component
records whether the registered implementation was reached (dispatch is by
name lookup in `TOOL_IMPLS` only; there is no allowed-set check here). -/
def execute_tool (registry : List String) (impl : String → Args → ImplOutcome)
    (tool_name : String) (args : Args) : ObsPayload × Bool :=
  if tool_name ∈ registry then
    match impl tool_name args with
    | .ret p => (p, true)
    | .typeErr m =>
      ({ ok := false, error := some ("bad args for " ++ tool_name ++ ": " ++ m) }, true)
    | .exc m => ({ ok := false, error := some m }, true)
  else ({ ok := false, error := some ("unknown tool: " ++ tool_name) }, false)

/-- Output of processing one batch of tool calls: an early return value
(the finalize branch), the updated `last_config_value`, the updated
`steps_used`, and the accumulated executed calls. -/
structure BatchOut where
  earlyResult : Option RunResult
  lastConfig : Option String
  stepsUsed : Nat
  executed : List (String × Args)
deriving DecidableEq

/-- The `for tc in tool_calls` loop of `AgentSDKRunner.run`
(`agent_sdk_runner.py` lines 145-231).  Every call is executed through
`execute_tool` (the allowed set plays no role here); `steps_used`
increments once per call; a `get_config` success updates
`last_config_value`; termination is honored only for a `finalize` call
whose result is ok. -/
def processToolCalls (registry : List String) (impl : String → Args → ImplOutcome) :
    List SdkCall → Option String → Nat → List (String × Args) → BatchOut
  | [], lc, steps, ex => ⟨none, lc, steps, ex⟩
  | c :: rest, lc, steps, ex =>
    let args := substituteValue lc c.name c.args
    let r := execute_tool registry impl c.name args
    let p := r.1
    let lc2 := if c.name = "get_config" ∧ p.ok = true ∧ p.value.isSome then p.value else lc
    let ex2 := ex ++ (if r.2 then [(c.name, args)] else [])
    let steps2 := steps + 1
    if c.name = "finalize" ∧ p.ok = true then
      ⟨some { terminated := true, finalStatus := some p.status }, lc2, steps2, ex2⟩
    else
      processToolCalls registry impl rest lc2 steps2 ex2

/-- The `while steps_used < self._max_total_steps` loop of
`AgentSDKRunner.run` (`agent_sdk_runner.py` lines 69-237).  `responses`
is the model oracle: the tool calls of the assistant response at each
iteration (`[]` models a content-only response, which costs one step and
continues).  The loop is driven by a fuel argument initialised to `N`:
every iteration of the source loop increases `steps_used` by at least one
(by one on a no-tool-call response, by the number of processed calls
otherwise), so the `steps < N` guard fails after at most `N` iterations
and the fuel-exhaustion branch (which returns the same
`max_steps_exceeded` result as the guard-failure branch) is never the
deciding exit for fuel `≥ N - steps`. -/
def sdkLoop (N : Nat) (registry : List String) (impl : String → Args → ImplOutcome)
    (responses : Nat → List SdkCall) :
    Nat → Nat → Nat → Option String → List (String × Args) →
    RunResult × Nat × List (String × Args)
  | 0, _, steps, _, ex =>
    ({ terminated := false, reason := some "max_steps_exceeded" }, steps, ex)
  | fuel + 1, iter, steps, lc, ex =>
    if steps < N then
      match responses iter with
      | [] => sdkLoop N registry impl responses fuel (iter + 1) (steps + 1) lc ex
      | c :: cs =>
        let out := processToolCalls registry impl (c :: cs) lc steps ex
        match out.earlyResult with
        | some r => (r, out.stepsUsed, out.executed)
        | none =>
          sdkLoop N registry impl responses fuel (iter + 1) out.stepsUsed
            out.lastConfig out.executed
    else ({ terminated := false, reason := some "max_steps_exceeded" }, steps, ex)

/-- `AgentSDKRunner.run`: advertises the filtered allowed tools to the
model, then runs the loop (which consults only the registry, never the
allowed set, when executing calls).  Returns the advertised tool names
together with the loop result (result record, final `steps_used`,
executed calls). -/
def run (N : Nat) (registry : List String) (impl : String → Args → ImplOutcome)
    (allowed : List String) (responses : Nat → List SdkCall) :
    List String × (RunResult × Nat × List (String × Args)) :=
  (advertisedTools registry allowed, sdkLoop N registry impl responses N 0 0 none [])

end AgentSDKRunner

namespace Broker

/-- One `PendingInput` as stored in `HumanIOBroker._pending`
(`human_io.py` lines 10-14): the one-shot future (identified by `futId`)
and the request `kind`. -/
structure PendingSlot where
  futId : Nat
  kind : String
deriving DecidableEq

/-- The broker state: the `_pending` table (run_id-keyed dict) plus the
settlement record of every future (`futId` with the value passed to
`set_result`), which models `future.done()` / the delivered value. -/
structure BrokerState where
  pending : List (String × PendingSlot)
  fulfilled : List (Nat × String)
deriving DecidableEq

/-- Python dict assignment `d[k] = v`: replaces an existing binding,
otherwise appends. -/
def dictInsert {β : Type} : List (String × β) → String → β → List (String × β)
  | [], k, v => [(k, v)]
  | (k0, v0) :: rest, k, v =>
    if k0 = k then (k, v) :: rest else (k0, v0) :: dictInsert rest k v

/-- Python `d.pop(k, None)` restricted to its effect on the dict. -/
def dictPop {β : Type} : List (String × β) → String → List (String × β)
  | [], _ => []
  | (k0, v0) :: rest, k =>
    if k0 = k then rest else (k0, v0) :: dictPop rest k

/-- The registration step of `wait_for_input` (`human_io.py` line 23):
`self._pending[run_id] = PendingInput(future=fut, kind=kind)` with a
fresh future `futId`.  An existing entry for the same `run_id` is
overwritten. -/
def register (s : BrokerState) (run_id : String) (futId : Nat) (kind : String) :
    BrokerState :=
  { s with pending := dictInsert s.pending run_id ⟨futId, kind⟩ }

/-- `submit_input` (`human_io.py` lines 29-35): look up the slot by
`run_id`; missing slot or kind mismatch returns `False`; otherwise
`set_result` runs only when the future is not yet done, and `True` is
returned either way. -/
def submit_input (s : BrokerState) (run_id kind value : String) : Bool × BrokerState :=
  match alistLookup s.pending run_id with
  | none => (false, s)
  | some slot =>
    if slot.kind ≠ kind then (false, s)
    else if (alistLookup s.fulfilled slot.futId).isSome then (true, s)
    else (true, { s with fulfilled := s.fulfilled ++ [(slot.futId, value)] })

/-- The settlement step of `wait_for_input` (`human_io.py` line 27): the
`finally` clause pops whatever entry is stored under `run_id` once the
wait finishes (by fulfillment or by timeout). -/
def settleWaiter (s : BrokerState) (run_id : String) : BrokerState :=
  { s with pending := dictPop s.pending run_id }

/-- External events that can hit the pending table after a registration:
a `submit_input` call or a waiter settling. -/
inductive BrokerOp where
  | submitOp (run_id kind value : String)
  | settleOp (run_id : String)
deriving DecidableEq

/-- Apply one event to the broker state. -/
def applyOp (s : BrokerState) : BrokerOp → BrokerState
  | .submitOp r k v => (submit_input s r k v).2
  | .settleOp r => settleWaiter s r

/-- Apply a sequence of events. -/
def applyOps (s : BrokerState) : List BrokerOp → BrokerState
  | [] => s
  | op :: rest => applyOps (applyOp s op) rest

/-- The run identifiers currently registered. -/
def pendingKeys (s : BrokerState) : List String :=
  s.pending.map Prod.fst

/-- The future ids currently registered in the pending table. -/
def pendingFutIds (s : BrokerState) : List Nat :=
  s.pending.map (fun p => p.2.futId)

/-- The future ids that have received a `set_result`. -/
def fulfilledIds (s : BrokerState) : List Nat :=
  s.fulfilled.map Prod.fst

end Broker

namespace MemoryStore

/-- An obstacle signature (`memory_store.py`): site-local title/body
keyword lists (the site keying selects the bucket upstream). -/
structure Signature where
  title_kws : List String
  text_kws : List String
deriving DecidableEq

/-- A stored experience entry of a bucket: its signature and recipe. -/
structure ExperienceEntry where
  signature : Signature
  recipe : List (String × Args)
deriving DecidableEq

/-- `_score` (`memory_store.py` lines 55-61): the size of the
title-keyword set intersection plus the size of the body-keyword set
intersection, each side truncated (6 title, 10 body) before building the
sets. -/
def scoreSig (a b : Signature) : Nat :=
  ((a.title_kws.take 6).dedup.filter (fun w => decide (w ∈ b.title_kws.take 6))).length
  + ((a.text_kws.take 10).dedup.filter (fun w => decide (w ∈ b.text_kws.take 10))).length

/-- The scan of `retrieve_known_resolution` (`memory_store.py` lines
72-82): `best = None`, `best_score = -1`, replace on `score > best_score`.
The accumulator `none` stands for the initial `(None, -1)` pair, so the
first entry (any score `≥ 0 > -1`) always becomes the candidate. -/
def bestLoop (sig : Signature) :
    List ExperienceEntry → Option (ExperienceEntry × Nat) → Option (ExperienceEntry × Nat)
  | [], best => best
  | e :: rest, best =>
    let sc := scoreSig sig e.signature
    match best with
    | none => bestLoop sig rest (some (e, sc))
    | some (b, bs) =>
      if bs < sc then bestLoop sig rest (some (e, sc))
      else bestLoop sig rest (some (b, bs))

/-- `retrieve_known_resolution` (`memory_store.py` lines 64-87) on the
decoded items of a bucket (most recent first, as returned by
`LRANGE` after `LPUSH`): return the scanned best entry's recipe when the
entry exists and its recipe is non-empty, else `None`. -/
def retrieve_known_resolution (items : List ExperienceEntry) (sig : Signature) :
    Option (List (String × Args)) :=
  match bestLoop sig items none with
  | some (b, _) => if b.recipe.isEmpty then none else some b.recipe
  | none => none

end MemoryStore

/-- Modelled from the spec: the workflow control state machine.  The
`/v2/signal/pause|resume|cancel` endpoints in `main.py` signal
`ShoppingWorkflow.pause`, `ShoppingWorkflow.resume` and
`ShoppingWorkflow.cancel`, but those signal handlers (and the durable
state they drive) are not part of the source sample
(`src/workflows/shopping_workflow.py` defines only `run`), so the states
are taken from spec §3 (`Running`, `Paused`, `Cancelled`, `Completed`,
`Failed`). -/
inductive WorkflowState where
  | Running
  | Paused
  | Cancelled
  | Completed
  | Failed
deriving DecidableEq, Fintype

/-- Modelled from the spec: the events the workflow reacts to — the three
external signals plus loop success and retry-exhausted activity failure
(spec §4.4, §6). -/
inductive WorkflowEvent where
  | pause
  | resume
  | cancel
  | loopSuccess
  | activityFailed
deriving DecidableEq, Fintype

/-- Terminal states per spec §3. -/
def isTerminal : WorkflowState → Bool
  | .Completed => true
  | .Failed => true
  | .Cancelled => true
  | _ => false

/-- Modelled from the spec: the transition function of §4.4 — `Running →
Paused` on pause, `Paused → Running` on resume, any non-terminal state →
`Cancelled` on cancel, `Running → Completed` on loop success, `Running →
Failed` on retry-exhausted activity error; every signal received in an
already-reached (or otherwise unlisted) state is a no-op (§6
idempotence). -/
def wfStep : WorkflowState → WorkflowEvent → WorkflowState
  | .Running, .pause => .Paused
  | .Paused, .resume => .Running
  | .Running, .cancel => .Cancelled
  | .Paused, .cancel => .Cancelled
  | .Running, .loopSuccess => .Completed
  | .Running, .activityFailed => .Failed
  | s, _ => s

/-- The dispatcher-level failure cases of `execute_tool`
(`sdk_tools.py`): unknown tool name, argument mismatch (`TypeError`), or
an exception escaping the tool body. -/
def AgentSDKRunner.dispatchFailure (registry : List String)
    (impl : String → Args → AgentSDKRunner.ImplOutcome)
    (name : String) (args : Args) : Prop :=
  name ∉ registry ∨ (∃ m, impl name args = .typeErr m) ∨ (∃ m, impl name args = .exc m)

/-- The dispatcher-level failure cases of `AgentRunner._execute_tool`
(`runtime.py`): missing/empty tool name, unknown tool, per-step timeout,
or an exception escaping the tool body. -/
def AgentRunner.dispatchFailureRt (registry : List String)
    (impl : String → Args → AgentRunner.RtOutcome)
    (tool_name : Option String) (args : Args) : Prop :=
  tool_name = none ∨ tool_name = some "" ∨
  (∃ n, tool_name = some n ∧
    (n ∉ registry ∨ impl n args = .timeout ∨ ∃ m, impl n args = .exc m))

/-!
Lemma layer: structural facts about the embedded loops, shared by the
claim theorems below.
-/

theorem processCalls_spent (allowed : List String)
    (execTool : String → Args → ObsPayload) :
    ∀ (calls : List ToolCall) (spent : Nat),
      (AgentRunner.processCalls allowed execTool calls spent).2.2 =
        spent + (AgentRunner.processCalls allowed execTool calls spent).2.1.length := by
  intro calls
  induction calls with
  | nil => intro spent; simp [AgentRunner.processCalls]
  | cons c rest ih =>
    intro spent
    by_cases hg : placeholderGuard c.args
    · simp [AgentRunner.processCalls, hg, ih spent]
    · cases hn : c.name with
      | none => simp [AgentRunner.processCalls, hg, hn, ih spent]
      | some n =>
        by_cases ha : n ∈ allowed
        · simp only [AgentRunner.processCalls, hg, hn, ha, if_true, if_false,
            Bool.false_eq_true, ite_false, ite_true, List.length_cons]
          rw [ih (spent + 1)]
          omega
        · simp [AgentRunner.processCalls, hg, hn, ha, ih spent]

theorem processCalls_spent_le (allowed : List String)
    (execTool : String → Args → ObsPayload) :
    ∀ (calls : List ToolCall) (spent : Nat),
      (AgentRunner.processCalls allowed execTool calls spent).2.2 ≤
        spent + calls.length := by
  intro calls
  induction calls with
  | nil => intro spent; simp [AgentRunner.processCalls]
  | cons c rest ih =>
    intro spent
    by_cases hg : placeholderGuard c.args
    · simp only [AgentRunner.processCalls, hg, if_true, List.length_cons]
      exact le_trans (ih spent) (by omega)
    · cases hn : c.name with
      | none =>
        simp only [AgentRunner.processCalls, hg, hn, Bool.false_eq_true, ite_false,
          List.length_cons]
        exact le_trans (ih spent) (by omega)
      | some n =>
        by_cases ha : n ∈ allowed
        · simp only [AgentRunner.processCalls, hg, hn, ha, Bool.false_eq_true,
            ite_false, ite_true, List.length_cons]
          exact le_trans (ih (spent + 1)) (by omega)
        · simp only [AgentRunner.processCalls, hg, hn, ha, Bool.false_eq_true,
            ite_false, List.length_cons]
          exact le_trans (ih spent) (by omega)

theorem processCalls_exec_sound (allowed : List String)
    (execTool : String → Args → ObsPayload) :
    ∀ (calls : List ToolCall) (spent : Nat) (p : String × Args),
      p ∈ (AgentRunner.processCalls allowed execTool calls spent).2.1 →
        placeholderGuard p.2 = false ∧ p.1 ∈ allowed := by
  intro calls
  induction calls with
  | nil => intro spent p hp; simp [AgentRunner.processCalls] at hp
  | cons c rest ih =>
    intro spent p hp
    by_cases hg : placeholderGuard c.args
    · simp only [AgentRunner.processCalls, hg, if_true] at hp
      exact ih spent p hp
    · cases hn : c.name with
      | none =>
        simp only [AgentRunner.processCalls, hg, hn, Bool.false_eq_true, ite_false] at hp
        exact ih spent p hp
      | some n =>
        by_cases ha : n ∈ allowed
        · simp only [AgentRunner.processCalls, hg, hn, ha, Bool.false_eq_true,
            ite_false, ite_true, List.mem_cons] at hp
          rcases hp with hp | hp
          · subst hp
            exact ⟨by simpa using hg, ha⟩
          · exact ih (spent + 1) p hp
        · simp only [AgentRunner.processCalls, hg, hn, ha, Bool.false_eq_true,
            ite_false] at hp
          exact ih spent p hp

theorem processCalls_guard_obs (allowed : List String)
    (execTool : String → Args → ObsPayload) :
    ∀ (calls : List ToolCall) (spent : Nat) (call : ToolCall),
      call ∈ calls → placeholderGuard call.args = true →
        ({ tool := call.name, ok := false,
           error := some "placeholders not allowed" } : Obs) ∈
          (AgentRunner.processCalls allowed execTool calls spent).1 := by
  intro calls
  induction calls with
  | nil => intro spent call hc; simp at hc
  | cons c rest ih =>
    intro spent call hc hguard
    rcases List.mem_cons.mp hc with hc | hc
    · subst hc
      simp only [AgentRunner.processCalls, hguard, if_true, List.mem_cons]
      left
      trivial
    · by_cases hg : placeholderGuard c.args
      · simp only [AgentRunner.processCalls, hg, if_true, List.mem_cons]
        right
        exact ih spent call hc hguard
      · cases hn : c.name with
        | none =>
          simp only [AgentRunner.processCalls, hg, hn, Bool.false_eq_true, ite_false,
            List.mem_cons]
          right
          exact ih spent call hc hguard
        | some n =>
          by_cases ha : n ∈ allowed
          · simp only [AgentRunner.processCalls, hg, hn, ha, Bool.false_eq_true,
              ite_false, ite_true, List.mem_cons]
            right
            exact ih (spent + 1) call hc hguard
          · simp only [AgentRunner.processCalls, hg, hn, ha, Bool.false_eq_true,
              ite_false, List.mem_cons]
            right
            exact ih spent call hc hguard

theorem processCalls_notAllowed_obs (allowed : List String)
    (execTool : String → Args → ObsPayload) :
    ∀ (calls : List ToolCall) (spent : Nat) (call : ToolCall),
      call ∈ calls → placeholderGuard call.args = false →
      (∀ n, call.name = some n → n ∉ allowed) →
        ({ tool := call.name, ok := false,
           error := some "tool not allowed" } : Obs) ∈
          (AgentRunner.processCalls allowed execTool calls spent).1 := by
  intro calls
  induction calls with
  | nil => intro spent call hc; simp at hc
  | cons c rest ih =>
    intro spent call hc hguard hna
    rcases List.mem_cons.mp hc with hc | hc
    · subst hc
      cases hn : call.name with
      | none =>
        simp only [AgentRunner.processCalls, hguard, hn, Bool.false_eq_true,
          ite_false, List.mem_cons]
        left
        trivial
      | some n =>
        have ha : n ∉ allowed := hna n hn
        simp only [AgentRunner.processCalls, hguard, hn, ha, Bool.false_eq_true,
          ite_false, List.mem_cons]
        left
        trivial
    · by_cases hg : placeholderGuard c.args
      · simp only [AgentRunner.processCalls, hg, if_true, List.mem_cons]
        right
        exact ih spent call hc hguard hna
      · cases hn : c.name with
        | none =>
          simp only [AgentRunner.processCalls, hg, hn, Bool.false_eq_true, ite_false,
            List.mem_cons]
          right
          exact ih spent call hc hguard hna
        | some n =>
          by_cases ha : n ∈ allowed
          · simp only [AgentRunner.processCalls, hg, hn, ha, Bool.false_eq_true,
              ite_false, ite_true, List.mem_cons]
            right
            exact ih (spent + 1) call hc hguard hna
          · simp only [AgentRunner.processCalls, hg, hn, ha, Bool.false_eq_true,
              ite_false, List.mem_cons]
            right
            exact ih spent call hc hguard hna

theorem runLoop_spent (budget mAct : Nat) (allowed : List String)
    (execTool : String → Args → ObsPayload) (decisions : Nat → Decision) :
    ∀ (stepsLeft step spent : Nat) (ex : List (String × Args)),
      (AgentRunner.runLoop budget mAct allowed execTool decisions
          stepsLeft step spent ex).2.1 + ex.length =
        spent + (AgentRunner.runLoop budget mAct allowed execTool decisions
          stepsLeft step spent ex).2.2.length := by
  intro stepsLeft
  induction stepsLeft with
  | zero => intro step spent ex; simp [AgentRunner.runLoop]
  | succ k ih =>
    intro step spent ex
    simp only [AgentRunner.runLoop]
    split
    · simp
    · split
      · have hps := processCalls_spent allowed execTool
          ((decisions step).actions.take (max 1 mAct)) spent
        simp only [List.length_append]
        omega
      · have hps := processCalls_spent allowed execTool
          ((decisions step).actions.take (max 1 mAct)) spent
        have hih := ih (step + 1)
          ((AgentRunner.processCalls allowed execTool
            ((decisions step).actions.take (max 1 mAct)) spent).2.2)
          (ex ++ (AgentRunner.processCalls allowed execTool
            ((decisions step).actions.take (max 1 mAct)) spent).2.1)
        simp only [List.length_append] at hih ⊢
        omega

theorem runLoop_exec_sound (budget mAct : Nat) (allowed : List String)
    (execTool : String → Args → ObsPayload) (decisions : Nat → Decision) :
    ∀ (stepsLeft step spent : Nat) (ex : List (String × Args)) (p : String × Args),
      p ∈ (AgentRunner.runLoop budget mAct allowed execTool decisions
          stepsLeft step spent ex).2.2 →
        p ∈ ex ∨ (placeholderGuard p.2 = false ∧ p.1 ∈ allowed) := by
  intro stepsLeft
  induction stepsLeft with
  | zero =>
    intro step spent ex p hp
    simp only [AgentRunner.runLoop] at hp
    exact Or.inl hp
  | succ k ih =>
    intro step spent ex p hp
    simp only [AgentRunner.runLoop] at hp
    rcases Decidable.em (budget ≤ spent) with hb | hb
    · rw [if_pos hb] at hp
      exact Or.inl hp
    · rw [if_neg hb] at hp
      rcases Decidable.em ((decisions step).terminate = true) with ht | ht
      · rw [if_pos ht] at hp
        simp only [List.mem_append] at hp
        rcases hp with hp | hp
        · exact Or.inl hp
        · exact Or.inr (processCalls_exec_sound allowed execTool _ spent p hp)
      · rw [if_neg ht] at hp
        rcases ih (step + 1) _ _ p hp with hmem | hsound
        · simp only [List.mem_append] at hmem
          rcases hmem with hmem | hmem
          · exact Or.inl hmem
          · exact Or.inr (processCalls_exec_sound allowed execTool _ spent p hmem)
        · exact Or.inr hsound

theorem runLoop_spent_le (budget mAct : Nat) (allowed : List String)
    (execTool : String → Args → ObsPayload) (decisions : Nat → Decision) :
    ∀ (stepsLeft step spent : Nat) (ex : List (String × Args)),
      spent ≤ budget - 1 + max 1 mAct →
        (AgentRunner.runLoop budget mAct allowed execTool decisions
          stepsLeft step spent ex).2.1 ≤ budget - 1 + max 1 mAct := by
  intro stepsLeft
  induction stepsLeft with
  | zero => intro step spent ex hs; simpa [AgentRunner.runLoop] using hs
  | succ k ih =>
    intro step spent ex hs
    simp only [AgentRunner.runLoop]
    split
    · exact hs
    · have hlt : spent < budget := by omega
      have htake : ((decisions step).actions.take (max 1 mAct)).length ≤ max 1 mAct :=
        List.length_take_le _ _
      have hps := processCalls_spent_le allowed execTool
        ((decisions step).actions.take (max 1 mAct)) spent
      have hm : 1 ≤ max 1 mAct := le_max_left 1 mAct
      have hs2 : (AgentRunner.processCalls allowed execTool
          ((decisions step).actions.take (max 1 mAct)) spent).2.2 ≤
            budget - 1 + max 1 mAct := by omega
      split
      · exact hs2
      · exact ih (step + 1) _ _ hs2

theorem runLoop_noterm (budget mAct : Nat) (allowed : List String)
    (execTool : String → Args → ObsPayload) (decisions : Nat → Decision)
    (hterm : ∀ i, (decisions i).terminate = false) :
    ∀ (stepsLeft step spent : Nat) (ex : List (String × Args)),
      (AgentRunner.runLoop budget mAct allowed execTool decisions
          stepsLeft step spent ex).1.terminated = false ∧
      ((AgentRunner.runLoop budget mAct allowed execTool decisions
          stepsLeft step spent ex).1.reason = some "global_budget_exceeded" ∨
       (AgentRunner.runLoop budget mAct allowed execTool decisions
          stepsLeft step spent ex).1.reason = some "max_steps_exceeded") := by
  intro stepsLeft
  induction stepsLeft with
  | zero => intro step spent ex; simp [AgentRunner.runLoop]
  | succ k ih =>
    intro step spent ex
    simp only [AgentRunner.runLoop]
    split
    · simp
    · rw [if_neg (by simp [hterm step])]
      exact ih (step + 1) _ _

theorem runLoop_term_exists (budget mAct : Nat) (allowed : List String)
    (execTool : String → Args → ObsPayload) (decisions : Nat → Decision) :
    ∀ (stepsLeft step spent : Nat) (ex : List (String × Args)),
      (AgentRunner.runLoop budget mAct allowed execTool decisions
          stepsLeft step spent ex).1.terminated = true →
        ∃ i, (decisions i).terminate = true := by
  intro stepsLeft
  induction stepsLeft with
  | zero => intro step spent ex h; simp [AgentRunner.runLoop] at h
  | succ k ih =>
    intro step spent ex h
    simp only [AgentRunner.runLoop] at h
    rcases Decidable.em (budget ≤ spent) with hb | hb
    · rw [if_pos hb] at h
      simp at h
    · rw [if_neg hb] at h
      rcases Decidable.em ((decisions step).terminate = true) with ht | ht
      · exact ⟨step, ht⟩
      · rw [if_neg ht] at h
        exact ih (step + 1) _ _ h

theorem runLoop_immediate (budget mAct : Nat) (allowed : List String)
    (execTool : String → Args → ObsPayload) (decisions : Nat → Decision)
    (k step spent : Nat) (ex : List (String × Args)) (hb : budget ≤ spent) :
    AgentRunner.runLoop budget mAct allowed execTool decisions
        (k + 1) step spent ex =
      ({ terminated := false, reason := some "global_budget_exceeded" }, spent, ex) := by
  simp [AgentRunner.runLoop, hb]

theorem processToolCalls_early (registry : List String)
    (impl : String → Args → AgentSDKRunner.ImplOutcome) :
    ∀ (calls : List AgentSDKRunner.SdkCall) (lc : Option String) (steps : Nat)
      (ex : List (String × Args)) (r : RunResult),
      (AgentSDKRunner.processToolCalls registry impl calls lc steps ex).earlyResult =
          some r →
        r.terminated = true ∧
        ∃ c ∈ calls, c.name = "finalize" ∧
          ∃ a, (AgentSDKRunner.execute_tool registry impl "finalize" a).1.ok = true := by
  intro calls
  induction calls with
  | nil => intro lc steps ex r h; simp [AgentSDKRunner.processToolCalls] at h
  | cons c rest ih =>
    intro lc steps ex r h
    simp only [AgentSDKRunner.processToolCalls] at h
    rcases Decidable.em (c.name = "finalize" ∧
        (AgentSDKRunner.execute_tool registry impl c.name
          (AgentSDKRunner.substituteValue lc c.name c.args)).1.ok = true) with hf | hf
    · rw [if_pos hf] at h
      simp only [Option.some.injEq] at h
      subst h
      refine ⟨rfl, c, List.mem_cons_self c rest, hf.1, ?_⟩
      refine ⟨AgentSDKRunner.substituteValue lc c.name c.args, ?_⟩
      rw [← hf.1]
      exact hf.2
    · rw [if_neg hf] at h
      obtain ⟨hterm, c2, hc2, hrest⟩ := ih _ _ _ _ h
      exact ⟨hterm, c2, List.mem_cons_of_mem c hc2, hrest⟩

theorem sdkLoop_term (N : Nat) (registry : List String)
    (impl : String → Args → AgentSDKRunner.ImplOutcome)
    (responses : Nat → List AgentSDKRunner.SdkCall) :
    ∀ (fuel iter steps : Nat) (lc : Option String) (ex : List (String × Args)),
      (AgentSDKRunner.sdkLoop N registry impl responses
          fuel iter steps lc ex).1.terminated = true →
        ∃ i, ∃ c ∈ responses i, c.name = "finalize" ∧
          ∃ a, (AgentSDKRunner.execute_tool registry impl "finalize" a).1.ok = true := by
  intro fuel
  induction fuel with
  | zero => intro iter steps lc ex h; simp [AgentSDKRunner.sdkLoop] at h
  | succ k ih =>
    intro iter steps lc ex h
    simp only [AgentSDKRunner.sdkLoop] at h
    split at h
    · split at h
      · exact ih _ _ _ _ h
      · next c cs heq =>
        split at h
        · next r heq2 =>
          obtain ⟨_, c2, hc2, hname, ha⟩ := processToolCalls_early registry impl _ _ _ _ _ heq2
          exact ⟨iter, c2, by rw [heq]; exact hc2, hname, ha⟩
        · exact ih _ _ _ _ h
    · simp at h

theorem sdkLoop_budget (N : Nat) (registry : List String)
    (impl : String → Args → AgentSDKRunner.ImplOutcome)
    (responses : Nat → List AgentSDKRunner.SdkCall)
    (fuel iter steps : Nat) (lc : Option String) (ex : List (String × Args))
    (hge : N ≤ steps) :
    AgentSDKRunner.sdkLoop N registry impl responses fuel iter steps lc ex =
      ({ terminated := false, reason := some "max_steps_exceeded" }, steps, ex) := by
  cases fuel with
  | zero => simp [AgentSDKRunner.sdkLoop]
  | succ k => simp [AgentSDKRunner.sdkLoop, Nat.not_lt.mpr hge]

theorem alistLookup_mem {α β : Type} [DecidableEq α] :
    ∀ (l : List (α × β)) (k : α) (v : β), alistLookup l k = some v → (k, v) ∈ l := by
  intro l
  induction l with
  | nil => intro k v h; simp [alistLookup] at h
  | cons p rest ih =>
    intro k v h
    rcases p with ⟨k0, v0⟩
    simp only [alistLookup] at h
    rcases Decidable.em (k0 = k) with he | he
    · rw [if_pos he] at h
      simp only [Option.some.injEq] at h
      subst he
      subst h
      exact List.mem_cons_self _ _
    · rw [if_neg he] at h
      exact List.mem_cons_of_mem _ (ih k v h)

theorem dictInsert_lookup {β : Type} :
    ∀ (l : List (String × β)) (k : String) (v : β),
      alistLookup (Broker.dictInsert l k v) k = some v := by
  intro l
  induction l with
  | nil => intro k v; simp [Broker.dictInsert, alistLookup]
  | cons p rest ih =>
    intro k v
    rcases p with ⟨k0, v0⟩
    simp only [Broker.dictInsert]
    rcases Decidable.em (k0 = k) with he | he
    · rw [if_pos he]
      simp [alistLookup]
    · rw [if_neg he]
      simp only [alistLookup]
      rw [if_neg he]
      exact ih k v

theorem dictInsert_overwrite {β : Type} :
    ∀ (l : List (String × β)) (k : String) (v1 v2 : β),
      Broker.dictInsert (Broker.dictInsert l k v1) k v2 = Broker.dictInsert l k v2 := by
  intro l
  induction l with
  | nil => intro k v1 v2; simp [Broker.dictInsert]
  | cons p rest ih =>
    intro k v1 v2
    rcases p with ⟨k0, v0⟩
    by_cases he : k0 = k
    · subst he
      simp [Broker.dictInsert]
    · simp [Broker.dictInsert, he, ih]

theorem dictInsert_map_mem {β γ : Type} (f : String × β → γ) :
    ∀ (l : List (String × β)) (k : String) (v : β) (y : γ),
      y ∈ (Broker.dictInsert l k v).map f → y ∈ l.map f ∨ y = f (k, v) := by
  intro l
  induction l with
  | nil =>
    intro k v y hy
    simp [Broker.dictInsert] at hy
    exact Or.inr hy
  | cons p rest ih =>
    intro k v y hy
    rcases p with ⟨k0, v0⟩
    simp only [Broker.dictInsert] at hy
    rcases Decidable.em (k0 = k) with he | he
    · rw [if_pos he] at hy
      rw [List.map_cons] at hy
      rcases List.mem_cons.mp hy with hy | hy
      · exact Or.inr hy
      · exact Or.inl (by rw [List.map_cons]; exact List.mem_cons_of_mem _ hy)
    · rw [if_neg he] at hy
      rw [List.map_cons] at hy
      rcases List.mem_cons.mp hy with hy | hy
      · exact Or.inl (by rw [List.map_cons, hy]; exact List.mem_cons_self _ _)
      · rcases ih k v y hy with h2 | h2
        · exact Or.inl (by rw [List.map_cons]; exact List.mem_cons_of_mem _ h2)
        · exact Or.inr h2

theorem dictInsert_keys_nodup {β : Type} :
    ∀ (l : List (String × β)) (k : String) (v : β),
      (l.map Prod.fst).Nodup → ((Broker.dictInsert l k v).map Prod.fst).Nodup := by
  intro l
  induction l with
  | nil => intro k v _; simp [Broker.dictInsert]
  | cons p rest ih =>
    intro k v hnd
    rcases p with ⟨k0, v0⟩
    simp only [List.map_cons, List.nodup_cons] at hnd
    simp only [Broker.dictInsert]
    rcases Decidable.em (k0 = k) with he | he
    · rw [if_pos he]
      simp only [List.map_cons, List.nodup_cons]
      subst he
      exact hnd
    · rw [if_neg he]
      simp only [List.map_cons, List.nodup_cons]
      constructor
      · intro hmem
        rcases dictInsert_map_mem Prod.fst rest k v k0 hmem with h2 | h2
        · exact hnd.1 h2
        · exact he h2
      · exact ih k v hnd.2

theorem dictPop_sublist {β : Type} :
    ∀ (l : List (String × β)) (k : String), (Broker.dictPop l k).Sublist l := by
  intro l
  induction l with
  | nil => intro k; simp [Broker.dictPop]
  | cons p rest ih =>
    intro k
    rcases p with ⟨k0, v0⟩
    simp only [Broker.dictPop]
    rcases Decidable.em (k0 = k) with he | he
    · rw [if_pos he]
      exact List.sublist_cons_self _ _
    · rw [if_neg he]
      exact List.Sublist.cons₂ _ (ih k)

theorem applyOp_fresh (s : Broker.BrokerState) (op : Broker.BrokerOp) (a : Nat)
    (hp : a ∉ Broker.pendingFutIds s) (hf : a ∉ Broker.fulfilledIds s) :
    a ∉ Broker.pendingFutIds (Broker.applyOp s op) ∧
    a ∉ Broker.fulfilledIds (Broker.applyOp s op) := by
  cases op with
  | submitOp rid kind v =>
    simp only [Broker.applyOp, Broker.submit_input]
    rcases hl : alistLookup s.pending rid with _ | slot
    · exact ⟨hp, hf⟩
    · dsimp only
      rcases Decidable.em (slot.kind ≠ kind) with hk | hk
      · rw [if_pos hk]
        exact ⟨hp, hf⟩
      · rw [if_neg hk]
        rcases Decidable.em ((alistLookup s.fulfilled slot.futId).isSome = true) with hd | hd
        · rw [if_pos hd]
          exact ⟨hp, hf⟩
        · rw [if_neg hd]
          refine ⟨hp, ?_⟩
          have hslot : (rid, slot) ∈ s.pending := alistLookup_mem s.pending rid slot hl
          have hfut : slot.futId ∈ Broker.pendingFutIds s := by
            simp only [Broker.pendingFutIds, List.mem_map]
            exact ⟨(rid, slot), hslot, rfl⟩
          have hne : a ≠ slot.futId := fun hcontra => hp (hcontra ▸ hfut)
          simp only [Broker.fulfilledIds, List.map_append, List.mem_append,
            List.map_cons, List.map_nil, List.mem_singleton]
          intro hcontra
          rcases hcontra with hcontra | hcontra
          · exact hf hcontra
          · exact hne hcontra
  | settleOp rid =>
    simp only [Broker.applyOp, Broker.settleWaiter]
    refine ⟨?_, hf⟩
    intro hmem
    have hsub : ((Broker.dictPop s.pending rid).map (fun p => p.2.futId)).Sublist
        (s.pending.map (fun p => p.2.futId)) :=
      List.Sublist.map _ (dictPop_sublist s.pending rid)
    exact hp (hsub.mem hmem)

theorem applyOp_nodup (s : Broker.BrokerState) (op : Broker.BrokerOp)
    (hnd : (Broker.pendingKeys s).Nodup) :
    (Broker.pendingKeys (Broker.applyOp s op)).Nodup := by
  cases op with
  | submitOp rid kind v =>
    simp only [Broker.applyOp, Broker.submit_input]
    rcases hl : alistLookup s.pending rid with _ | slot
    · exact hnd
    · dsimp only
      rcases Decidable.em (slot.kind ≠ kind) with hk | hk
      · rw [if_pos hk]; exact hnd
      · rw [if_neg hk]
        rcases Decidable.em ((alistLookup s.fulfilled slot.futId).isSome = true) with hd | hd
        · rw [if_pos hd]; exact hnd
        · rw [if_neg hd]; exact hnd
  | settleOp rid =>
    simp only [Broker.applyOp, Broker.settleWaiter, Broker.pendingKeys]
    exact hnd.sublist (List.Sublist.map _ (dictPop_sublist s.pending rid))

theorem applyOps_fresh (a : Nat) :
    ∀ (ops : List Broker.BrokerOp) (s : Broker.BrokerState),
      a ∉ Broker.pendingFutIds s → a ∉ Broker.fulfilledIds s →
        a ∉ Broker.fulfilledIds (Broker.applyOps s ops) := by
  intro ops
  induction ops with
  | nil => intro s _ hf; exact hf
  | cons op rest ih =>
    intro s hp hf
    obtain ⟨hp2, hf2⟩ := applyOp_fresh s op a hp hf
    exact ih _ hp2 hf2

theorem applyOps_nodup :
    ∀ (ops : List Broker.BrokerOp) (s : Broker.BrokerState),
      (Broker.pendingKeys s).Nodup →
        (Broker.pendingKeys (Broker.applyOps s ops)).Nodup := by
  intro ops
  induction ops with
  | nil => intro s h; exact h
  | cons op rest ih => intro s h; exact ih _ (applyOp_nodup s op h)

theorem bestLoop_const (sig : MemoryStore.Signature) :
    ∀ (l : List MemoryStore.ExperienceEntry) (b : MemoryStore.ExperienceEntry) (bs : Nat),
      (∀ x ∈ l, MemoryStore.scoreSig sig x.signature ≤ bs) →
        MemoryStore.bestLoop sig l (some (b, bs)) = some (b, bs) := by
  intro l
  induction l with
  | nil => intro b bs _; simp [MemoryStore.bestLoop]
  | cons e rest ih =>
    intro b bs hle
    simp only [MemoryStore.bestLoop]
    rw [if_neg (by
      have := hle e (List.mem_cons_self e rest)
      omega)]
    exact ih b bs (fun x hx => hle x (List.mem_cons_of_mem e hx))

theorem AgentRunner_run_eq (budget maxSteps mAct spent0 : Nat) (allowed : List String)
    (execTool : String → Args → ObsPayload) (decisions : Nat → Decision) :
    AgentRunner.run budget maxSteps mAct allowed execTool decisions spent0 =
      AgentRunner.runLoop budget mAct allowed execTool decisions maxSteps 0 spent0 [] :=
  rfl

theorem AgentSDKRunner_run_eq (N : Nat) (registry : List String)
    (impl : String → Args → AgentSDKRunner.ImplOutcome) (allowed : List String)
    (responses : Nat → List AgentSDKRunner.SdkCall) :
    (AgentSDKRunner.run N registry impl allowed responses).2 =
      AgentSDKRunner.sdkLoop N registry impl responses N 0 0 none [] :=
  rfl

/-!
Claim theorems.
-/

/-- C1 (counterexample): the claim states that a decided tool call whose
argument map contains a literal password placeholder in any field is
rejected and never dispatched; but a call with `value = "$\x7bPASSWORD\x7d"`
passes the guardrail (which only inspects `selector` and `text`) and is
handed to `_execute_tool`, with `fill_label` a registered tool. -/
theorem C1_counterexample :
    ("fill_label", [("label", "postnummer"), ("value", PASSWORD_MARKER)]) ∈
      (AgentRunner.run 6 2 1 ["fill_label"] (fun _ _ => { ok := true })
        (fun _ => ⟨[⟨some "fill_label",
          [("label", "postnummer"), ("value", PASSWORD_MARKER)]⟩], true⟩) 0).2.2 ∧
    containsPy (getArgD [("label", "postnummer"), ("value", PASSWORD_MARKER)] "value")
      PASSWORD_MARKER = true ∧
    "fill_label" ∈ TOOL_IMPLS_names := by
  decide

/-- C1 (amended): the legacy loop's placeholder guardrail inspects only
the `selector` and `text` argument fields; every call it dispatches to
`_execute_tool` fails the guardrail predicate, and every decided call
whose `selector` contains `_FROM_HINT` or whose `text` contains a
username/password placeholder gets an `ok=false` "placeholders not
allowed" Observation and is never dispatched. -/
theorem C1_theorem (budget maxSteps mAct spent0 spent : Nat) (allowed : List String)
    (execTool : String → Args → ObsPayload) (decisions : Nat → Decision)
    (calls : List ToolCall) :
    (∀ p ∈ (AgentRunner.run budget maxSteps mAct allowed execTool decisions spent0).2.2,
        placeholderGuard p.2 = false) ∧
    (∀ p ∈ (AgentRunner.processCalls allowed execTool calls spent).2.1,
        placeholderGuard p.2 = false) ∧
    (∀ call ∈ calls, placeholderGuard call.args = true →
        ({ tool := call.name, ok := false,
           error := some "placeholders not allowed" } : Obs) ∈
          (AgentRunner.processCalls allowed execTool calls spent).1) := by
  refine ⟨?_, ?_, ?_⟩
  · intro p hp
    rw [AgentRunner_run_eq] at hp
    rcases runLoop_exec_sound budget mAct allowed execTool decisions
        maxSteps 0 spent0 [] p hp with h | h
    · simp at h
    · exact h.1
  · intro p hp
    exact (processCalls_exec_sound allowed execTool calls spent p hp).1
  · intro call hc hg
    exact processCalls_guard_obs allowed execTool calls spent call hc hg

/-- C1 (witness): a call typing the password placeholder into the `text`
field is rejected with the policy Observation. -/
theorem C1_witness :
    ({ tool := some "type", ok := false,
       error := some "placeholders not allowed" } : Obs) ∈
      (AgentRunner.processCalls ["type"] (fun _ _ => { ok := true })
        [⟨some "type", [("selector", "#user"), ("text", PASSWORD_MARKER)]⟩] 0).1 :=
  (C1_theorem 6 2 1 0 0 ["type"] (fun _ _ => { ok := true }) (fun _ => ⟨[], false⟩)
      [⟨some "type", [("selector", "#user"), ("text", PASSWORD_MARKER)]⟩]).2.2
    ⟨some "type", [("selector", "#user"), ("text", PASSWORD_MARKER)]⟩
    (List.mem_cons_self _ _) (by decide)

/-- C2 (counterexample): with budget N = 1 but `max_actions_per_step = 2`,
one iteration executes two tool calls before the budget is re-checked, so
the run executes more than N tool-call-incrementing steps, refuting the
claimed bound. -/
theorem C2_counterexample :
    (AgentRunner.run 1 1 2 ["click"] (fun _ _ => { ok := true })
      (fun _ => ⟨[⟨some "click", [("selector", "#a")]⟩,
                  ⟨some "click", [("selector", "#b")]⟩], false⟩) 0).2.2.length = 2 ∧
    ¬ ((AgentRunner.run 1 1 2 ["click"] (fun _ _ => { ok := true })
      (fun _ => ⟨[⟨some "click", [("selector", "#a")]⟩,
                  ⟨some "click", [("selector", "#b")]⟩], false⟩) 0).2.2.length ≤ 1) := by
  decide

/-- C2 (amended): the budget counter increments exactly on executed tool
calls (final counter = initial counter + number of dispatched calls);
because the budget is checked only at the top of an iteration and up to
`max(1, max_actions_per_step)` calls run per iteration, the counter is
bounded by `budget - 1 + max(1, max_actions_per_step)`; and a run whose
decisions never set the terminate flag ends with `terminated = false` and
reason `global_budget_exceeded` or `max_steps_exceeded`. -/
theorem C2_theorem (budget maxSteps mAct spent0 : Nat) (allowed : List String)
    (execTool : String → Args → ObsPayload) (decisions : Nat → Decision) :
    ((AgentRunner.run budget maxSteps mAct allowed execTool decisions spent0).2.1 =
      spent0 +
        (AgentRunner.run budget maxSteps mAct allowed execTool decisions spent0).2.2.length) ∧
    (spent0 ≤ budget - 1 + max 1 mAct →
      (AgentRunner.run budget maxSteps mAct allowed execTool decisions spent0).2.1 ≤
        budget - 1 + max 1 mAct) ∧
    ((∀ i, (decisions i).terminate = false) →
      (AgentRunner.run budget maxSteps mAct allowed execTool decisions spent0).1.terminated
          = false ∧
      ((AgentRunner.run budget maxSteps mAct allowed execTool decisions spent0).1.reason =
          some "global_budget_exceeded" ∨
       (AgentRunner.run budget maxSteps mAct allowed execTool decisions spent0).1.reason =
          some "max_steps_exceeded")) := by
  refine ⟨?_, ?_, ?_⟩
  · rw [AgentRunner_run_eq]
    have h := runLoop_spent budget mAct allowed execTool decisions maxSteps 0 spent0 []
    simp only [List.length_nil] at h
    omega
  · intro hs
    rw [AgentRunner_run_eq]
    exact runLoop_spent_le budget mAct allowed execTool decisions maxSteps 0 spent0 [] hs
  · intro hterm
    rw [AgentRunner_run_eq]
    exact runLoop_noterm budget mAct allowed execTool decisions hterm maxSteps 0 spent0 []

/-- C2 (witness): a concrete non-terminating run with budget 2 ends
non-terminated with a budget/step reason. -/
theorem C2_witness :
    (AgentRunner.run 2 3 1 ["click"] (fun _ _ => { ok := true })
      (fun _ => ⟨[⟨some "click", [("selector", "#a")]⟩], false⟩) 0).1.terminated = false ∧
    ((AgentRunner.run 2 3 1 ["click"] (fun _ _ => { ok := true })
      (fun _ => ⟨[⟨some "click", [("selector", "#a")]⟩], false⟩) 0).1.reason =
        some "global_budget_exceeded" ∨
     (AgentRunner.run 2 3 1 ["click"] (fun _ _ => { ok := true })
      (fun _ => ⟨[⟨some "click", [("selector", "#a")]⟩], false⟩) 0).1.reason =
        some "max_steps_exceeded") :=
  (C2_theorem 2 3 1 0 ["click"] (fun _ _ => { ok := true })
    (fun _ => ⟨[⟨some "click", [("selector", "#a")]⟩], false⟩)).2.2 (fun _ => rfl)

/-- C3 (counterexample): the legacy loop returns a terminated result when
the model sets the decision's `terminate` flag, even though no `finalize`
tool call was ever dispatched (the executed-call list is empty). -/
theorem C3_counterexample :
    (AgentRunner.run 6 2 1 ["click"] (fun _ _ => { ok := true })
      (fun _ => ⟨[], true⟩) 0).1.terminated = true ∧
    (AgentRunner.run 6 2 1 ["click"] (fun _ _ => { ok := true })
      (fun _ => ⟨[], true⟩) 0).2.2 = [] := by
  decide

/-- C3 (amended): the SDK runner returns a terminated result only when a
`finalize` tool call executed with an ok result; the legacy runner,
however, returns `terminated = true` whenever some decision set the
`terminate` flag, independent of any finalize call (the finalize payload
is merely attached when present). -/
theorem C3_theorem (budget maxSteps mAct spent0 N : Nat) (allowed : List String)
    (execTool : String → Args → ObsPayload) (decisions : Nat → Decision)
    (registry : List String) (impl : String → Args → AgentSDKRunner.ImplOutcome)
    (sdkAllowed : List String) (responses : Nat → List AgentSDKRunner.SdkCall) :
    ((AgentRunner.run budget maxSteps mAct allowed execTool decisions
        spent0).1.terminated = true → ∃ i, (decisions i).terminate = true) ∧
    ((AgentSDKRunner.run N registry impl sdkAllowed responses).2.1.terminated = true →
      ∃ i, ∃ c ∈ responses i, c.name = "finalize" ∧
        ∃ a, (AgentSDKRunner.execute_tool registry impl "finalize" a).1.ok = true) := by
  constructor
  · intro h
    rw [AgentRunner_run_eq] at h
    exact runLoop_term_exists budget mAct allowed execTool decisions maxSteps 0 spent0 [] h
  · intro h
    rw [AgentSDKRunner_run_eq] at h
    exact sdkLoop_term N registry impl responses N 0 0 none [] h

/-- C3 (witness): a concrete SDK run that returns terminated did execute
an ok `finalize` call. -/
theorem C3_witness :
    ∃ i, ∃ c ∈ (fun _ : Nat => [(⟨"finalize", [("status", "success")]⟩ :
        AgentSDKRunner.SdkCall)]) i, c.name = "finalize" ∧
      ∃ a, (AgentSDKRunner.execute_tool TOOL_IMPLS_names
        (fun _ _ => .ret { ok := true, status := some "success" }) "finalize" a).1.ok
          = true :=
  (C3_theorem 6 2 1 0 1 ["click"] (fun _ _ => { ok := true }) (fun _ => ⟨[], false⟩)
      TOOL_IMPLS_names (fun _ _ => .ret { ok := true, status := some "success" })
      ["finalize"]
      (fun _ => [⟨"finalize", [("status", "success")]⟩])).2 (by decide)

/-- C4 (counterexample): submitting to a slot whose future is already
fulfilled but which has not yet been removed by the waiter returns
`true`, not the claimed `false`. -/
theorem C4_counterexample :
    (Broker.submit_input ⟨[("r1", ⟨0, "generic"⟩)], [(0, "OK")]⟩ "r1" "generic" "X").1
      = true ∧
    (Broker.submit_input ⟨[("r1", ⟨0, "generic"⟩)], [(0, "OK")]⟩ "r1" "generic" "X").2
      = ⟨[("r1", ⟨0, "generic"⟩)], [(0, "OK")]⟩ := by
  decide

/-- C4 (amended): at most one `submit_input` call transitions a slot's
future from pending to fulfilled (a matching submit against an
already-done future changes nothing), and a submit after the slot's
removal returns `false` without raising and without touching the state;
however a submit against a still-registered, already-fulfilled slot
returns `true`, not `false`. -/
theorem C4_theorem (s : Broker.BrokerState) (rid kind v : String) :
    (alistLookup s.pending rid = none →
      Broker.submit_input s rid kind v = (false, s)) ∧
    (∀ slot : Broker.PendingSlot, alistLookup s.pending rid = some slot →
      slot.kind = kind → (alistLookup s.fulfilled slot.futId).isSome = true →
        Broker.submit_input s rid kind v = (true, s)) ∧
    (∀ slot : Broker.PendingSlot, alistLookup s.pending rid = some slot →
      slot.kind = kind → alistLookup s.fulfilled slot.futId = none →
        Broker.submit_input s rid kind v =
          (true, { s with fulfilled := s.fulfilled ++ [(slot.futId, v)] })) := by
  refine ⟨?_, ?_, ?_⟩
  · intro hl
    simp [Broker.submit_input, hl]
  · intro slot hl hk hd
    simp only [Broker.submit_input, hl]
    rw [if_neg (by simp [hk]), if_pos hd]
  · intro slot hl hk hd
    simp only [Broker.submit_input, hl]
    rw [if_neg (by simp [hk]), if_neg (by simp [hd])]

/-- C4 (witness): the single pending-to-fulfilled transition on a fresh
slot. -/
theorem C4_witness :
    Broker.submit_input ⟨[("r1", ⟨0, "generic"⟩)], []⟩ "r1" "generic" "OK" =
      (true, ⟨[("r1", ⟨0, "generic"⟩)], [(0, "OK")]⟩) :=
  (C4_theorem ⟨[("r1", ⟨0, "generic"⟩)], []⟩ "r1" "generic" "OK").2.2
    ⟨0, "generic"⟩ (by decide) rfl rfl

/-- C5 (counterexample): a bucket whose single stored entry has zero
keyword overlap with the query still yields that entry's recipe — the
scan starts from score −1, so a zero-scoring entry wins and there IS a
closest-guess fallback, refuting the claim. -/
theorem C5_counterexample :
    MemoryStore.retrieve_known_resolution
      [⟨⟨["cookie"], ["banner"]⟩, [("click_text", [("text", "OK")])]⟩]
      ⟨["postnummer"], ["leverans"]⟩ = some [("click_text", [("text", "OK")])] ∧
    MemoryStore.scoreSig ⟨["postnummer"], ["leverans"]⟩ ⟨["cookie"], ["banner"]⟩ = 0 := by
  decide

/-- C5 (amended): when every stored entry scores zero against the query,
retrieval returns the most recent entry's recipe when it is non-empty
(and `none` only when that recipe is empty); on an empty bucket it
returns `none`. -/
theorem C5_theorem (sig : MemoryStore.Signature) (e : MemoryStore.ExperienceEntry)
    (rest : List MemoryStore.ExperienceEntry)
    (hzero : ∀ x ∈ e :: rest, MemoryStore.scoreSig sig x.signature = 0) :
    MemoryStore.retrieve_known_resolution [] sig = none ∧
    MemoryStore.retrieve_known_resolution (e :: rest) sig =
      (if e.recipe.isEmpty then none else some e.recipe) := by
  constructor
  · rfl
  · have h0 : MemoryStore.scoreSig sig e.signature = 0 :=
      hzero e (List.mem_cons_self e rest)
    have hrest : ∀ x ∈ rest, MemoryStore.scoreSig sig x.signature ≤ 0 :=
      fun x hx => le_of_eq (hzero x (List.mem_cons_of_mem e hx))
    have hstep : MemoryStore.bestLoop sig (e :: rest) none =
        MemoryStore.bestLoop sig rest (some (e, MemoryStore.scoreSig sig e.signature)) :=
      rfl
    unfold MemoryStore.retrieve_known_resolution
    rw [hstep, h0, bestLoop_const sig rest e 0 hrest]

/-- C5 (witness): two identical zero-overlap entries with different,
non-empty recipes: retrieval returns the most recent entry's recipe (it
does not return none). -/
theorem C5_witness :
    MemoryStore.retrieve_known_resolution
      [⟨⟨["cookie"], ["banner"]⟩, [("modal_close", [])]⟩,
       ⟨⟨["cookie"], ["banner"]⟩, [("press_key", [("key", "Escape")])]⟩]
      ⟨["postnummer"], ["leverans"]⟩ = some [("modal_close", [])] :=
  ( C5_theorem ⟨["postnummer"], ["leverans"]⟩
      ⟨⟨["cookie"], ["banner"]⟩, [("modal_close", [])]⟩
      [⟨⟨["cookie"], ["banner"]⟩, [("press_key", [("key", "Escape")])]⟩]
      (by decide)).2

/-- C6 (counterexample): the SDK runner with allowed set `["click"]`
executes a model-dispatched `get_secret` call anyway — the execution path
checks only the registry, never the run's allowed set. -/
theorem C6_counterexample :
    ("get_secret", [("name", "COOP_PASSWORD")]) ∈
      (AgentSDKRunner.run 1 TOOL_IMPLS_names (fun _ _ => .ret { ok := true }) ["click"]
        (fun _ => [⟨"get_secret", [("name", "COOP_PASSWORD")]⟩])).2.2.2 ∧
    ¬ ("get_secret" ∈ ["click"]) := by
  decide

/-- C6 (amended): the legacy runner never dispatches a tool outside
`allowed_tools` and appends an `ok=false` "tool not allowed" Observation
for such calls; the SDK runner applies the allowed set only when
advertising tools to the model (allowed minus `invoke_subagent`,
restricted to the registry, provided that filter is non-empty), while its
execution path runs any registered name and rejects (without invoking)
only unregistered names. -/
theorem C6_theorem (budget maxSteps mAct spent0 spent : Nat) (allowed : List String)
    (execTool : String → Args → ObsPayload) (decisions : Nat → Decision)
    (calls : List ToolCall) (registry : List String)
    (impl : String → Args → AgentSDKRunner.ImplOutcome) (name : String) (args : Args) :
    (∀ p ∈ (AgentRunner.run budget maxSteps mAct allowed execTool decisions spent0).2.2,
        p.1 ∈ allowed) ∧
    (∀ call ∈ calls, placeholderGuard call.args = false →
      (∀ n, call.name = some n → n ∉ allowed) →
        ({ tool := call.name, ok := false, error := some "tool not allowed" } : Obs) ∈
          (AgentRunner.processCalls allowed execTool calls spent).1) ∧
    (allowed.filter (fun t => decide (t ≠ "invoke_subagent")) ≠ [] →
      ∀ t ∈ AgentSDKRunner.advertisedTools registry allowed,
        t ∈ allowed ∧ t ≠ "invoke_subagent" ∧ t ∈ registry) ∧
    (name ∈ registry → (AgentSDKRunner.execute_tool registry impl name args).2 = true) ∧
    (name ∉ registry →
      (AgentSDKRunner.execute_tool registry impl name args).2 = false ∧
      (AgentSDKRunner.execute_tool registry impl name args).1.ok = false) := by
  refine ⟨?_, ?_, ?_, ?_, ?_⟩
  · intro p hp
    rw [AgentRunner_run_eq] at hp
    rcases runLoop_exec_sound budget mAct allowed execTool decisions
        maxSteps 0 spent0 [] p hp with h | h
    · simp at h
    · exact h.2
  · intro call hc hg hna
    exact processCalls_notAllowed_obs allowed execTool calls spent call hc hg hna
  · intro hne t ht
    have hemp : (allowed.filter (fun t => decide (t ≠ "invoke_subagent"))).isEmpty
        = false := by
      cases hl : allowed.filter (fun t => decide (t ≠ "invoke_subagent")) with
      | nil => exact absurd hl hne
      | cons x xs => rfl
    simp only [AgentSDKRunner.advertisedTools, AgentSDKRunner.build_openai_tools,
      hemp, Bool.false_eq_true, if_false, List.mem_filter] at ht
    rcases ht with ⟨⟨hta, htd⟩, ht2⟩
    refine ⟨hta, by simpa using htd, by simpa using ht2⟩
  · intro hreg
    cases him : impl name args <;> simp [AgentSDKRunner.execute_tool, hreg, him]
  · intro hreg
    simp [AgentSDKRunner.execute_tool, hreg]

/-- C6 (witness): a registered name reaches its implementation in the SDK
dispatcher. -/
theorem C6_witness :
    (AgentSDKRunner.execute_tool TOOL_IMPLS_names (fun _ _ => .ret { ok := true })
      "get_secret" [("name", "COOP_PASSWORD")]).2 = true :=
  (C6_theorem 6 2 1 0 0 ["click"] (fun _ _ => { ok := true }) (fun _ => ⟨[], false⟩)
      [] TOOL_IMPLS_names (fun _ _ => .ret { ok := true }) "get_secret"
      [("name", "COOP_PASSWORD")]).2.2.2.1 (by decide)

/-- C7: the workflow state machine (modelled from the spec, as its signal
handlers are referenced from `main.py` but absent from
`shopping_workflow.py`) makes exactly the transitions Running→Paused on
pause, Paused→Running on resume, non-terminal→Cancelled on cancel,
Running→Completed on loop success, Running→Failed on retry-exhausted
activity failure, and each signal is idempotent: in any other (state,
event) combination the state is unchanged. -/
theorem C7_theorem :
    wfStep .Running .pause = .Paused ∧
    wfStep .Paused .resume = .Running ∧
    wfStep .Running .cancel = .Cancelled ∧
    wfStep .Paused .cancel = .Cancelled ∧
    wfStep .Running .loopSuccess = .Completed ∧
    wfStep .Running .activityFailed = .Failed ∧
    wfStep .Paused .pause = .Paused ∧
    wfStep .Running .resume = .Running ∧
    wfStep .Cancelled .cancel = .Cancelled ∧
    (∀ (s : WorkflowState) (e : WorkflowEvent),
      wfStep s e = s ∨
      (s = WorkflowState.Running ∧ e = WorkflowEvent.pause ∧
        wfStep s e = WorkflowState.Paused) ∨
      (s = WorkflowState.Paused ∧ e = WorkflowEvent.resume ∧
        wfStep s e = WorkflowState.Running) ∨
      (isTerminal s = false ∧ e = WorkflowEvent.cancel ∧
        wfStep s e = WorkflowState.Cancelled) ∨
      (s = WorkflowState.Running ∧ e = WorkflowEvent.loopSuccess ∧
        wfStep s e = WorkflowState.Completed) ∨
      (s = WorkflowState.Running ∧ e = WorkflowEvent.activityFailed ∧
        wfStep s e = WorkflowState.Failed)) := by
  refine ⟨rfl, rfl, rfl, rfl, rfl, rfl, rfl, rfl, rfl, ?_⟩
  decide

/-- C8: both tool dispatchers convert every failure mode — unknown tool
name, missing name, argument mismatch, timeout, or an exception from the
tool body — into an `ok=false` Observation carrying an error string;
being total functions, they let no fault escape the dispatch boundary. -/
theorem C8_theorem (registry : List String)
    (impl : String → Args → AgentSDKRunner.ImplOutcome)
    (implRt : String → Args → AgentRunner.RtOutcome) (sec : Nat)
    (name : String) (tool_name : Option String) (args args2 : Args) :
    (AgentSDKRunner.dispatchFailure registry impl name args →
      (AgentSDKRunner.execute_tool registry impl name args).1.ok = false ∧
      (AgentSDKRunner.execute_tool registry impl name args).1.error.isSome = true) ∧
    (AgentRunner.dispatchFailureRt registry implRt tool_name args2 →
      (AgentRunner.execute_tool_rt registry implRt sec tool_name args2).ok = false ∧
      (AgentRunner.execute_tool_rt registry implRt sec tool_name args2).error.isSome
        = true) := by
  constructor
  · intro hfail
    by_cases hreg : name ∈ registry
    · rcases hfail with hfail | ⟨m, hm⟩ | ⟨m, hm⟩
      · exact absurd hreg hfail
      · simp [AgentSDKRunner.execute_tool, hreg, hm]
      · simp [AgentSDKRunner.execute_tool, hreg, hm]
    · simp [AgentSDKRunner.execute_tool, hreg]
  · intro hfail
    rcases hfail with h | h | ⟨n, hn, hcase⟩
    · subst h
      simp [AgentRunner.execute_tool_rt]
    · subst h
      simp [AgentRunner.execute_tool_rt]
    · subst hn
      by_cases hemp : n = ""
      · simp [AgentRunner.execute_tool_rt, hemp]
      · by_cases hreg : n ∈ registry
        · rcases hcase with hcase | hcase | ⟨m, hm⟩
          · exact absurd hreg hcase
          · simp [AgentRunner.execute_tool_rt, hemp, hreg, hcase]
          · simp [AgentRunner.execute_tool_rt, hemp, hreg, hm]
        · simp [AgentRunner.execute_tool_rt, hemp, hreg]

/-- C8 (witness): an unknown tool name yields an ok=false Observation
with an error string. -/
theorem C8_witness :
    (AgentSDKRunner.execute_tool ["click"] (fun _ _ => .ret { ok := true })
      "no_such_tool" []).1.ok = false ∧
    (AgentSDKRunner.execute_tool ["click"] (fun _ _ => .ret { ok := true })
      "no_such_tool" []).1.error.isSome = true :=
  ( C8_theorem ["click"] (fun _ _ => .ret { ok := true })
      (fun _ _ => .ret { ok := true }) 30 "no_such_tool" none [] []).1
    (Or.inl (by decide))

/-- C9: the pending table holds at most one PendingInput per run_id
(key-nodup is preserved by every operation), a second registration for
the same run_id overwrites the first (last request wins), and the
overwritten waiter's future is never fulfilled by any later
submit/settle sequence. -/
theorem C9_theorem (s0 : Broker.BrokerState) (rid ka kb : String) (a b : Nat)
    (ops : List Broker.BrokerOp)
    (hfresh : a ∉ Broker.pendingFutIds s0)
    (hful : a ∉ Broker.fulfilledIds s0)
    (hab : a ≠ b)
    (hnodup : (Broker.pendingKeys s0).Nodup) :
    alistLookup (Broker.register (Broker.register s0 rid a ka) rid b kb).pending rid =
      some ⟨b, kb⟩ ∧
    Broker.register (Broker.register s0 rid a ka) rid b kb =
      Broker.register s0 rid b kb ∧
    (Broker.pendingKeys (Broker.applyOps
      (Broker.register (Broker.register s0 rid a ka) rid b kb) ops)).Nodup ∧
    a ∉ Broker.fulfilledIds (Broker.applyOps
      (Broker.register (Broker.register s0 rid a ka) rid b kb) ops) := by
  have hover : Broker.register (Broker.register s0 rid a ka) rid b kb =
      Broker.register s0 rid b kb := by
    simp [Broker.register, dictInsert_overwrite]
  have hnd2 : (Broker.pendingKeys (Broker.register s0 rid b kb)).Nodup :=
    dictInsert_keys_nodup s0.pending rid ⟨b, kb⟩ hnodup
  have hfresh2 : a ∉ Broker.pendingFutIds (Broker.register s0 rid b kb) := by
    intro hmem
    simp only [Broker.pendingFutIds, Broker.register] at hmem
    rcases dictInsert_map_mem (fun p => p.2.futId) s0.pending rid ⟨b, kb⟩ a hmem
      with h | h
    · exact hfresh h
    · exact hab h
  refine ⟨?_, hover, ?_, ?_⟩
  · rw [hover]
    exact dictInsert_lookup s0.pending rid ⟨b, kb⟩
  · rw [hover]
    exact applyOps_nodup ops _ hnd2
  · rw [hover]
    exact applyOps_fresh a ops _ hfresh2 hful

/-- C9 (witness): a concrete overwrite scenario — waiter 0 registered for
`r1`, overwritten by waiter 1, then a matching submit and a settle: the
table stays single-entry-per-key and future 0 is never fulfilled. -/
theorem C9_witness :
    alistLookup (Broker.register (Broker.register ⟨[], []⟩ "r1" 0 "generic")
      "r1" 1 "generic").pending "r1" = some ⟨1, "generic"⟩ ∧
    Broker.register (Broker.register ⟨[], []⟩ "r1" 0 "generic") "r1" 1 "generic" =
      Broker.register ⟨[], []⟩ "r1" 1 "generic" ∧
    (Broker.pendingKeys (Broker.applyOps
      (Broker.register (Broker.register ⟨[], []⟩ "r1" 0 "generic") "r1" 1 "generic")
      [.submitOp "r1" "generic" "OK", .settleOp "r1"])).Nodup ∧
    0 ∉ Broker.fulfilledIds (Broker.applyOps
      (Broker.register (Broker.register ⟨[], []⟩ "r1" 0 "generic") "r1" 1 "generic")
      [.submitOp "r1" "generic" "OK", .settleOp "r1"]) :=
  C9_theorem ⟨[], []⟩ "r1" "generic" "generic" 0 1
    [.submitOp "r1" "generic" "OK", .settleOp "r1"]
    (by decide) (by decide) (by decide) (by decide)

/-- C10: the legacy runner's budget counter is never reset by `run` (the
final counter is at least the initial one), and a `run` call made after
the instance's global budget is spent returns reason
`global_budget_exceeded` immediately, executing no tool and leaving the
counter unchanged. -/
theorem C10_theorem (budget maxSteps mAct : Nat) (allowed1 allowed2 : List String)
    (exec1 exec2 : String → Args → ObsPayload) (dec1 dec2 : Nat → Decision)
    (hms : 0 < maxSteps)
    (hspent : budget ≤ (AgentRunner.run budget maxSteps mAct allowed1 exec1 dec1 0).2.1) :
    (∀ spent0, spent0 ≤
      (AgentRunner.run budget maxSteps mAct allowed1 exec1 dec1 spent0).2.1) ∧
    AgentRunner.run budget maxSteps mAct allowed2 exec2 dec2
        ((AgentRunner.run budget maxSteps mAct allowed1 exec1 dec1 0).2.1) =
      ({ terminated := false, reason := some "global_budget_exceeded" },
       (AgentRunner.run budget maxSteps mAct allowed1 exec1 dec1 0).2.1, []) := by
  constructor
  · intro spent0
    rw [AgentRunner_run_eq]
    have h := runLoop_spent budget mAct allowed1 exec1 dec1 maxSteps 0 spent0 []
    simp only [List.length_nil] at h
    omega
  · obtain ⟨k, hk⟩ : ∃ k, maxSteps = k + 1 := ⟨maxSteps - 1, by omega⟩
    subst hk
    rw [AgentRunner_run_eq]
    exact runLoop_immediate budget mAct allowed2 exec2 dec2 k 0 _ [] hspent

/-- C10 (witness): after a run that spends the whole budget of 1, a
second run on the same instance returns `global_budget_exceeded` at once
with no executed tools. -/
theorem C10_witness :
    AgentRunner.run 1 1 1 ["goto"] (fun _ _ => { ok := true }) (fun _ => ⟨[], false⟩)
        ((AgentRunner.run 1 1 1 ["click"] (fun _ _ => { ok := true })
          (fun _ => ⟨[⟨some "click", [("selector", "#a")]⟩], false⟩) 0).2.1) =
      ({ terminated := false, reason := some "global_budget_exceeded" },
       (AgentRunner.run 1 1 1 ["click"] (fun _ _ => { ok := true })
         (fun _ => ⟨[⟨some "click", [("selector", "#a")]⟩], false⟩) 0).2.1, []) :=
  (C10_theorem 1 1 1 ["click"] ["goto"] (fun _ _ => { ok := true })
      (fun _ _ => { ok := true })
      (fun _ => ⟨[⟨some "click", [("selector", "#a")]⟩], false⟩)
      (fun _ => ⟨[], false⟩) (by decide) (by decide)).2
